import Mathlib

/-!
Verification development for the gogitsu/config binding engine
(package `config`: `readStructMetadata`, `readEnvVars`, `parseValue`,
`parseSlice`, `parseMap`, `WithEnvPrefix`, and the zero-value oracle
`isZero` from metadata.go).

The Go code is shallowly embedded: Go struct schemas become the
`FieldDecl` tree, reflect values become `GoValue`, reflect types become
`GoType`, and each Go function is translated to an executable Lean
function.  Loops that are not structurally decreasing in Go (the walker
queue, string splitting, duration scanning) take an explicit fuel
argument that the wrapper instantiates with a bound derived from the
input size, so every definition reduces inside the kernel.

Modelling conventions, noted where they matter:
* Go strings are Lean `String`s; all string operations used by the
  engine (`strings.Split`, `strings.SplitN`, `strings.TrimSpace`,
  `strings.HasSuffix`) are re-implemented over `List Char` so that they
  evaluate by `rfl`/`decide`.
* The `Setter` escape hatch is not modelled: none of the modelled field
  types declares a `SetValue` method, which matches Go, where the
  interface assertion at the top of `parseValue` fails for every plain
  built-in type and the switch below runs.
* `reflect.Value.IsNil` on slices and maps is modelled as emptiness
  (`nil` and empty non-nil collections are conflated); floating point
  values are kept as parsed decimal literals (sign, mantissa digits,
  decimal exponent) with binary rounding elided; `time.Parse` records
  the layout and raw string instead of interpreting the layout.  No
  claim depends on these corners.
-/

/-! ### String primitives (models of Go's `strings` helpers) -/

/-- Does the second list start with the first one?  Backs the models of
`strings.Split`, `strings.SplitN` and `strings.HasSuffix`. -/
def listStartsWith : List Char → List Char → Bool
  | [], _ => true
  | _ :: _, [] => false
  | p :: ps, c :: cs => p == c && listStartsWith ps cs

/-- Worker for `goSplit`: scan the text, cutting at every leftmost
non-overlapping occurrence of `sep` (which is non-empty here).  `fuel`
starts at the text length, and one character is consumed per step, so
the `0` case is unreachable from `goSplit`. -/
def splitFuel (sep : List Char) (acc : List Char) : Nat → List Char → List (List Char)
  | _, [] => [acc.reverse]
  | 0, rest => [acc.reverse ++ rest]
  | fuel + 1, c :: rest =>
    if listStartsWith sep (c :: rest) then
      acc.reverse :: splitFuel sep [] fuel (List.drop (sep.length - 1) rest)
    else
      splitFuel sep (c :: acc) fuel rest

/-- Model of Go `strings.Split(s, sep)`: with an empty separator the
string explodes into its runes, otherwise it is cut at every
non-overlapping occurrence of `sep` (`Split("", sep) = [""]`). -/
def goSplit (s sep : String) : List String :=
  if sep.toList.isEmpty then s.toList.map (fun c => String.mk [c])
  else (splitFuel sep.toList [] s.toList.length s.toList).map String.mk

/-- Worker for `goSplitFirst`: find the first occurrence of `sep` and
return the pieces before and after it. -/
def splitFirstAux (sep : List Char) (acc : List Char) : List Char → Option (List Char × List Char)
  | [] => none
  | c :: rest =>
    if listStartsWith sep (c :: rest) then
      some (acc.reverse, List.drop (sep.length - 1) rest)
    else
      splitFirstAux sep (c :: acc) rest

/-- Model of Go `strings.SplitN(s, sep, 2)` restricted to the way
`parseMap` consumes it: `some (k, v)` when `sep` occurs (split at the
first occurrence only), `none` when it does not (Go returns a
one-element slice and `parseMap` rejects it). -/
def goSplitFirst (s sep : String) : Option (String × String) :=
  (splitFirstAux sep.toList [] s.toList).map (fun p => (String.mk p.1, String.mk p.2))

/-- Model of Go `unicode.IsSpace` restricted to Latin-1 (the exotic
Unicode space classes are elided; no configuration value in any claim
contains them). -/
def goIsSpace (c : Char) : Bool :=
  c == ' ' || c == '\t' || c == '\n' || c == '\x0b' || c == '\x0c' ||
    c == '\x0d' || c == '\x85' || c == '\xa0'

/-- Model of Go `strings.TrimSpace`. -/
def goTrimSpace (s : String) : String :=
  String.mk (((s.toList.dropWhile goIsSpace).reverse.dropWhile goIsSpace).reverse)

/-- Model of Go `strings.HasSuffix`. -/
def goHasSuffix (s suf : String) : Bool :=
  listStartsWith suf.toList.reverse s.toList.reverse

/-- UTF-8 encoding of one scalar value, as byte values.  Models Go's
`[]byte(string)` conversion character by character. -/
def utf8Char (c : Char) : List Nat :=
  let n := c.toNat
  if n < 0x80 then [n]
  else if n < 0x800 then [0xc0 + n / 0x40, 0x80 + n % 0x40]
  else if n < 0x10000 then
    [0xe0 + n / 0x1000, 0x80 + n / 0x40 % 0x40, 0x80 + n % 0x40]
  else
    [0xf0 + n / 0x40000, 0x80 + n / 0x1000 % 0x40, 0x80 + n / 0x40 % 0x40, 0x80 + n % 0x40]

/-- The bytes of a Go string, i.e. Go's `[]byte(value)`. -/
def goStringBytes (s : String) : List Nat :=
  (s.toList.map utf8Char).flatten

/-- Digits (already validated) to the natural number they denote. -/
def digitsToNat (ds : List Char) : Nat :=
  ds.foldl (fun n c => n * 10 + (c.toNat - 48)) 0

/-! ### The reflect universe: types, values, errors -/

/-- The reflect types the binding engine dispatches on.  `intT`/`uintT`
carry `valueType.Bits()`; `durationT` is the `Int64` kind whose type is
`time.Duration` (the inner test of the integer case); `structT` is a
struct kind carrying `PkgPath` and `Name` — `structT "time" "Time"` is
the designated timestamp type, and any other `structT` stands for a
struct type that declares no fields (struct fields with declared fields
appear as `FieldDecl.nested` in a schema, see below); `otherT` is any
kind with no case in `parseValue`'s switch (pointer, array, channel,
function, complex, interface), carrying `PkgPath` and `Name` for the
error message. -/
inductive GoType where
  | stringT
  | boolT
  | intT (bits : Nat)
  | durationT
  | uintT (bits : Nat)
  | floatT (bits : Nat)
  | sliceT (elem : GoType)
  | mapT (key val : GoType)
  | structT (pkg nm : String)
  | otherT (pkg nm : String)
  deriving Repr, DecidableEq

/-- Go values as the engine observes them through `reflect.Value`.
`vint` covers all signed kinds including `time.Duration` (nanoseconds);
`vfloat` keeps the parsed decimal literal (sign, mantissa digits read as
a number, decimal exponent); `vtime` keeps the layout/raw pair that
produced the time (`none` is the zero `time.Time`); `vother` is an
opaque value of an unsupported kind recording only whether it is the
zero value of its type. -/
inductive GoValue where
  | vstr (s : String)
  | vbool (b : Bool)
  | vint (v : Int)
  | vuint (v : Nat)
  | vfloat (neg : Bool) (mant : Nat) (ex : Int)
  | vslice (elems : List GoValue)
  | vmap (entries : List (GoValue × GoValue))
  | vtime (parsed : Option (String × String))
  | vstruct (fields : List GoValue)
  | vother (zero : Bool)
  deriving Repr

/-- Every way the embedded engine can fail.  `numSyntax`/`numRange`
model `strconv.NumError` with its `Func` and `Num` fields (ParseBool,
ParseInt, ParseUint, ParseFloat); the `duration*` constructors model
`time.ParseDuration`'s error cases; `invalidMapItem` is `parseMap`'s
`"invalid map item"` error; `unsupportedType` is `parseValue`'s default
case naming `PkgPath` and `Name`; `requiredFieldMissing` is
`readEnvVars`' required-field error naming the field;
`panicUnexported` models the `reflect.Value.Interface` panic raised
when the walker recurses into an unexported struct field; `outOfFuel`
marks queue-fuel exhaustion and is unreachable from
`readStructMetadata`'s fuel bound. -/
inductive GoErr where
  | numSyntax (fn num : String)
  | numRange (fn num : String)
  | durationInvalid (orig : String)
  | durationMissingUnit (orig : String)
  | durationUnknownUnit (unit orig : String)
  | invalidMapItem (pair : String)
  | unsupportedType (pkg nm : String)
  | requiredFieldMissing (fieldName : String)
  | panicUnexported (fieldName : String)
  | outOfFuel
  deriving Repr, DecidableEq

/-! ### The zero-value oracle (metadata.go `isZero`) -/

mutual
/-- Model of metadata.go's `isZero` (the backport of
`reflect.Value.IsZero`).  Booleans, integers and strings compare
against their zero; floats are zero when `math.Float64bits` is zero,
i.e. exactly `+0` (so a negative-zero literal is not zero); slices and
maps use `IsNil`, modelled as emptiness; structs need every field zero;
the zero `time.Time` is the `none` record; `vother` carries its own
zero-ness.  The Go function's `default: panic` branch has no
counterpart because every modelled kind has a case. -/
def isZeroV : GoValue → Bool
  | .vstr s => s.length == 0
  | .vbool b => !b
  | .vint v => v == 0
  | .vuint v => v == 0
  | .vfloat neg mant _ => mant == 0 && !neg
  | .vslice l => l.isEmpty
  | .vmap l => l.isEmpty
  | .vtime o => o.isNone
  | .vstruct fs => isZeroFields fs
  | .vother z => z

/-- All struct fields zero (the `reflect.Struct` arm of `isZero`). -/
def isZeroFields : List GoValue → Bool
  | [] => true
  | v :: vs => isZeroV v && isZeroFields vs
end

/-! ### Go equality on values (map key comparison) -/

mutual
/-- Go `==` on modelled values, used for `SetMapIndex` key lookup.
Structural; for `vfloat` this compares the literal representation
(Go's float equality on rounded values is elided — no claim uses
non-string map keys). -/
def beqV : GoValue → GoValue → Bool
  | .vstr a, .vstr b => a == b
  | .vbool a, .vbool b => a == b
  | .vint a, .vint b => a == b
  | .vuint a, .vuint b => a == b
  | .vfloat n a e, .vfloat n' a' e' => n == n' && a == a' && e == e'
  | .vslice a, .vslice b => beqList a b
  | .vmap a, .vmap b => beqPairs a b
  | .vtime a, .vtime b => a == b
  | .vstruct a, .vstruct b => beqList a b
  | .vother a, .vother b => a == b
  | _, _ => false

/-- Elementwise `beqV` on lists. -/
def beqList : List GoValue → List GoValue → Bool
  | [], [] => true
  | a :: as', b :: bs' => beqV a b && beqList as' bs'
  | _, _ => false

/-- Elementwise `beqV` on entry lists. -/
def beqPairs : List (GoValue × GoValue) → List (GoValue × GoValue) → Bool
  | [], [] => true
  | (k, v) :: as', (k', v') :: bs' => beqV k k' && beqV v v' && beqPairs as' bs'
  | _, _ => false
end

/-- Model of `reflect.Value.SetMapIndex` on the association-list map
representation: replace the value of an existing equal key, else append
the new entry. -/
def mapSet : List (GoValue × GoValue) → GoValue → GoValue → List (GoValue × GoValue)
  | [], k, v => [(k, v)]
  | (k', v') :: rest, k, v =>
    if beqV k' k then (k', v) :: rest else (k', v') :: mapSet rest k v

/-- The zero value of a type, as `reflect.New(T).Elem()` or a
freshly made slice element provides it. -/
def zeroValue : GoType → GoValue
  | .stringT => .vstr ""
  | .boolT => .vbool false
  | .intT _ => .vint 0
  | .durationT => .vint 0
  | .uintT _ => .vuint 0
  | .floatT _ => .vfloat false 0 0
  | .sliceT _ => .vslice []
  | .mapT _ _ => .vmap []
  | .structT pkg nm => if pkg == "time" && nm == "Time" then .vtime none else .vstruct []
  | .otherT _ _ => .vother true

/-! ### strconv models (ParseBool, ParseInt, ParseUint, ParseFloat) -/

/-- Model of Go `strconv.ParseBool`: exactly the twelve canonical
literals. -/
def goParseBool (s : String) : Except GoErr Bool :=
  if s == "1" || s == "t" || s == "T" || s == "true" || s == "TRUE" || s == "True" then
    .ok true
  else if s == "0" || s == "f" || s == "F" || s == "false" || s == "FALSE" || s == "False" then
    .ok false
  else .error (.numSyntax "ParseBool" s)

/-- Decimal digit test on a character (Go `'0' <= c && c <= '9'`). -/
def isDigitCh (c : Char) : Bool :=
  '0' ≤ c && c ≤ '9'

/-- Hex-letter test used by `underscoreOK` when a `0x` prefix was
seen (Go `'a' <= lower(c) && lower(c) <= 'f'`). -/
def isHexLetter (c : Char) : Bool :=
  ('a' ≤ c && c ≤ 'f') || ('A' ≤ c && c ≤ 'F')

/-- Loop of `underscoreOK`.  `saw` is `'^'` before anything, `'0'`
after a digit, `'_'` after an underscore, `'!'` after anything else;
an underscore is legal only directly after a digit (or the base
prefix, which sets `saw` to `'0'`), and may not end the literal. -/
def underscoreOKLoop (hex : Bool) (saw : Char) : List Char → Bool
  | [] => saw != '_'
  | c :: rest =>
    if isDigitCh c || (hex && isHexLetter c) then underscoreOKLoop hex '0' rest
    else if c == '_' then
      if saw != '0' then false else underscoreOKLoop hex '_' rest
    else if saw == '_' then false
    else underscoreOKLoop hex '!' rest

/-- Model of strconv's `underscoreOK`: underscores in the literal must
sit between digits (the base prefix counting as a digit). -/
def underscoreOK (s : List Char) : Bool :=
  let s1 := match s with
    | c :: rest => if c == '+' || c == '-' then rest else s
    | [] => s
  match s1 with
  | '0' :: c2 :: rest =>
    if rest ≠ [] && (c2 == 'b' || c2 == 'B' || c2 == 'o' || c2 == 'O') then
      underscoreOKLoop false '0' rest
    else if rest ≠ [] && (c2 == 'x' || c2 == 'X') then
      underscoreOKLoop true '0' rest
    else underscoreOKLoop false '^' s1
  | _ => underscoreOKLoop false '^' s1

/-- The value of one digit character in any base up to 36
(`ParseUint`'s digit decoding); `none` on a non-alphanumeric
character. -/
def digitVal (c : Char) : Option Nat :=
  if isDigitCh c then some (c.toNat - 48)
  else if 'a' ≤ c && c ≤ 'z' then some (c.toNat - 97 + 10)
  else if 'A' ≤ c && c ≤ 'Z' then some (c.toNat - 65 + 10)
  else none

/-- Digit-accumulation loop of `strconv.ParseUint` (with base argument
0, the only way this repository calls it, so underscores are skipped
and flagged).  `cutoff` and `maxVal` give the range check; errors keep
Go's order: syntax on a bad digit before range on overflow. -/
def parseUintLoop (fn num : String) (base maxVal cutoff : Nat) (n : Nat) (under : Bool) :
    List Char → Except GoErr (Nat × Bool)
  | [] => .ok (n, under)
  | c :: rest =>
    if c == '_' then parseUintLoop fn num base maxVal cutoff n true rest
    else match digitVal c with
      | none => .error (.numSyntax fn num)
      | some d =>
        if base ≤ d then .error (.numSyntax fn num)
        else if cutoff ≤ n then .error (.numRange fn num)
        else
          let n' := n * base + d
          if maxVal < n' then .error (.numRange fn num)
          else parseUintLoop fn num base maxVal cutoff n' under rest

/-- Core of Go `strconv.ParseUint(s, 0, bits)` on an already
sign-stripped character list `chars` (`fn`/`num` name the strconv
function and original literal for the `NumError`): detect the base
from a `0b`/`0o`/`0x`/leading-`0` prefix, run the digit loop, and
reject misplaced underscores. -/
def goParseUintBase0 (fn num : String) (chars : List Char) (bits : Nat) : Except GoErr Nat :=
  match chars with
  | [] => .error (.numSyntax fn num)
  | _ =>
    let bd : Nat × List Char := match chars with
      | '0' :: c2 :: rest =>
        if rest ≠ [] && (c2 == 'b' || c2 == 'B') then (2, rest)
        else if rest ≠ [] && (c2 == 'o' || c2 == 'O') then (8, rest)
        else if rest ≠ [] && (c2 == 'x' || c2 == 'X') then (16, rest)
        else (8, c2 :: rest)
      | '0' :: [] => (8, [])
      | _ => (10, chars)
    let maxVal := 2 ^ bits - 1
    match parseUintLoop fn num bd.1 maxVal (maxVal / bd.1 + 1) 0 false bd.2 with
    | .error e => .error e
    | .ok (n, under) =>
      if under && !underscoreOK chars then .error (.numSyntax fn num)
      else .ok n

/-- Model of Go `strconv.ParseInt(s, 0, bits)`: strip a sign, parse the
rest as an unsigned base-detected literal, and range-check against the
signed cutoff `2^(bits-1)`.  (Go re-wraps the inner `ParseUint` errors
with `Func = "ParseInt"` and the full literal, which is how `fn`/`num`
are passed down; a range error from the unsigned phase stays a range
error because the clamped value always trips the signed cutoff too.) -/
def goParseInt (s : String) (bits : Nat) : Except GoErr Int :=
  match s.toList with
  | [] => .error (.numSyntax "ParseInt" s)
  | all =>
    let sr : Bool × List Char := match all with
      | '+' :: r => (false, r)
      | '-' :: r => (true, r)
      | r => (false, r)
    match goParseUintBase0 "ParseInt" s sr.2 bits with
    | .error e => .error e
    | .ok un =>
      let cutoff := 2 ^ (bits - 1)
      if !sr.1 && cutoff ≤ un then .error (.numRange "ParseInt" s)
      else if sr.1 && cutoff < un then .error (.numRange "ParseInt" s)
      else .ok (if sr.1 then -(un : Int) else (un : Int))

/-- Model of Go `strconv.ParseUint(s, 0, bits)` as `parseValue` calls
it for unsigned kinds (no sign is accepted: a `+` or `-` falls into the
digit loop and is a syntax error, as in Go). -/
def goParseUint (s : String) (bits : Nat) : Except GoErr Nat :=
  goParseUintBase0 "ParseUint" s s.toList bits

/-- Model of Go `strconv.ParseFloat(s, bits)` restricted to plain
decimal literals `[+-]digits[.digits][(e|E)[+-]digits]`: the value is
returned as its sign, mantissa digits and decimal exponent
(`GoValue.vfloat`).  Hex floats, `inf`/`NaN` forms, underscores and
binary rounding (hence `bits`) are elided — no claim touches float
coercion semantics. -/
def goParseFloat (s : String) (bits : Nat) : Except GoErr GoValue :=
  let _ := bits
  match s.toList with
  | [] => .error (.numSyntax "ParseFloat" s)
  | all =>
    let sr : Bool × List Char := match all with
      | '+' :: r => (false, r)
      | '-' :: r => (true, r)
      | r => (false, r)
    let intPart := sr.2.takeWhile isDigitCh
    let r1 := sr.2.dropWhile isDigitCh
    let fr : List Char × List Char := match r1 with
      | '.' :: r => (r.takeWhile isDigitCh, r.dropWhile isDigitCh)
      | _ => ([], r1)
    if intPart.isEmpty && fr.1.isEmpty then .error (.numSyntax "ParseFloat" s)
    else
      match fr.2 with
      | [] => .ok (.vfloat sr.1 (digitsToNat (intPart ++ fr.1)) (-(fr.1.length : Int)))
      | e :: r2 =>
        if e == 'e' || e == 'E' then
          let es : Bool × List Char := match r2 with
            | '+' :: r => (false, r)
            | '-' :: r => (true, r)
            | r => (false, r)
          if es.2.isEmpty || !(es.2.all isDigitCh) then .error (.numSyntax "ParseFloat" s)
          else
            let ev : Int := if es.1 then -(digitsToNat es.2 : Int) else (digitsToNat es.2 : Int)
            .ok (.vfloat sr.1 (digitsToNat (intPart ++ fr.1)) (ev - (fr.1.length : Int)))
        else .error (.numSyntax "ParseFloat" s)

/-! ### time.ParseDuration and time.Parse models -/

/-- The nanoseconds of one duration unit (Go's `unitMap`, with both
micro-sign spellings). -/
def durUnitNs (u : String) : Option Nat :=
  if u == "ns" then some 1
  else if u == "us" || u == "µs" || u == "μs" then some 1000
  else if u == "ms" then some 1000000
  else if u == "s" then some 1000000000
  else if u == "m" then some 60000000000
  else if u == "h" then some 3600000000000
  else none

/-- The `int64` maximum, the overflow bound in `time.ParseDuration`. -/
def int64Max : Nat := 2 ^ 63 - 1

/-- Model of ParseDuration's `leadingInt`: consume leading digits into
a value, `none` on int64 overflow. -/
def durLeadingInt (x : Nat) : List Char → Option (Nat × List Char)
  | [] => some (x, [])
  | c :: rest =>
    if isDigitCh c then
      if int64Max / 10 < x then none
      else
        let y := x * 10 + (c.toNat - 48)
        if int64Max < y then none
        else durLeadingInt y rest
    else some (x, c :: rest)

/-- Model of ParseDuration's `leadingFraction`: consume the digits of a
fraction into a value and a power-of-ten scale, saturating silently on
overflow as Go does. -/
def durLeadingFraction (x scale : Nat) (overflow : Bool) : List Char → Nat × Nat × List Char
  | [] => (x, scale, [])
  | c :: rest =>
    if isDigitCh c then
      if overflow then durLeadingFraction x scale true rest
      else if int64Max / 10 < x then durLeadingFraction x scale true rest
      else
        let y := x * 10 + (c.toNat - 48)
        if int64Max < y then durLeadingFraction x scale true rest
        else durLeadingFraction y (scale * 10) false rest
    else (x, scale, c :: rest)

/-- Main loop of `time.ParseDuration`: repeatedly consume
`[digits][.digits]unit`, accumulating nanoseconds in `d`.  Each stage
consumes at least one character, so `fuel` starting at the remaining
length makes the `0` case unreachable.  The fractional contribution is
computed exactly as `f * unit / scale` where Go rounds through
`float64` — the difference cannot show for the integral literals any
claim uses. -/
def durLoop (orig : String) (d : Nat) : Nat → List Char → Except GoErr Nat
  | _, [] => .ok d
  | 0, _ => .error (.durationInvalid orig)
  | fuel + 1, c :: cs =>
    if !(c == '.' || isDigitCh c) then .error (.durationInvalid orig)
    else
      match durLeadingInt 0 (c :: cs) with
      | none => .error (.durationInvalid orig)
      | some (v, rest1) =>
        let pre := rest1.length < (c :: cs).length
        let fp : Nat × Nat × Bool × List Char := match rest1 with
          | '.' :: rest2 =>
            let r := durLeadingFraction 0 1 false rest2
            (r.1, r.2.1, r.2.2.length < rest2.length, r.2.2)
          | _ => (0, 1, false, rest1)
        if !pre && !fp.2.2.1 then .error (.durationInvalid orig)
        else
          let u := fp.2.2.2.takeWhile (fun ch => !(ch == '.' || isDigitCh ch))
          let rest4 := fp.2.2.2.dropWhile (fun ch => !(ch == '.' || isDigitCh ch))
          if u.isEmpty then .error (.durationMissingUnit orig)
          else
            match durUnitNs (String.mk u) with
            | none => .error (.durationUnknownUnit (String.mk u) orig)
            | some unit =>
              if int64Max / unit < v then .error (.durationInvalid orig)
              else
                let v1 := v * unit
                let v2 := if 0 < fp.1 then v1 + fp.1 * unit / fp.2.1 else v1
                if int64Max < v2 then .error (.durationInvalid orig)
                else
                  let d' := d + v2
                  if int64Max < d' then .error (.durationInvalid orig)
                  else durLoop orig d' fuel rest4

/-- Model of Go `time.ParseDuration`: sign, the special `"0"` literal,
then number/unit pairs.  A bare integer with no unit (such as `"5"`)
is the missing-unit error; the empty string is invalid. -/
def goParseDuration (s : String) : Except GoErr Int :=
  let sr : Bool × List Char := match s.toList with
    | '-' :: r => (true, r)
    | '+' :: r => (false, r)
    | r => (false, r)
  if sr.2 == ['0'] then .ok 0
  else if sr.2.isEmpty then .error (.durationInvalid s)
  else
    match durLoop s 0 (sr.2.length + 1) sr.2 with
    | .error e => .error e
    | .ok d => .ok (if sr.1 then -(d : Int) else (d : Int))

/-- Go's `time.RFC3339` layout constant, the default when a field has
no `env-layout` tag. -/
def rfc3339Layout : String := "2006-01-02T15:04:05Z07:00"

/-- Model of Go `time.Parse(layout, value)`: the layout interpretation
is abstracted away and the parsed time records the layout and raw
string (`GoValue.vtime`); parse failures are not modelled, as no claim
depends on timestamp parsing semantics. -/
def goTimeParse (layout value : String) : Except GoErr GoValue :=
  .ok (.vtime (some (layout, value)))

/-! ### The value-coercion engine (`parseValue`, `parseSlice`, `parseMap`) -/

/-- The element loop of `parseSlice`: coerce each raw element with the
supplied parser, in order, aborting on the first failure (Go's indexed
`for` over the split values). -/
def parseElems (f : String → Except GoErr GoValue) : List String → Except GoErr (List GoValue)
  | [] => .ok []
  | v :: rest =>
    match f v with
    | .error e => .error e
    | .ok x =>
      match parseElems f rest with
      | .error e => .error e
      | .ok xs => .ok (x :: xs)

/-- The pair loop of `parseMap`: split each pair-token at the first
`:` (rejecting tokens without one), coerce key then value with the
supplied parsers, and insert with `mapSet`; aborts on the first
failure. -/
def parseMapPairs (pk pv : String → Except GoErr GoValue) :
    List String → List (GoValue × GoValue) → Except GoErr (List (GoValue × GoValue))
  | [], acc => .ok acc
  | pair :: rest, acc =>
    match goSplitFirst pair ":" with
    | none => .error (.invalidMapItem pair)
    | some kv =>
      match pk kv.1 with
      | .error e => .error e
      | .ok k =>
        match pv kv.2 with
        | .error e => .error e
        | .ok v => parseMapPairs pk pv rest (mapSet acc k v)

/-- Is a sequence element type Go's `reflect.Uint8` kind (the byte
exception of `parseSlice`)? -/
def GoType.isByteElem : GoType → Bool
  | .uintT bits => bits == 8
  | _ => false

/-- Model of `Configurator.parseValue` together with its helpers
`parseSlice` and `parseMap`, which only it calls.  The dispatch follows
the Go switch: strings verbatim; booleans via ParseBool; the signed
integer case parsing a duration literal exactly when the target type is
`time.Duration` and a base-detected integer otherwise; unsigned
integers via ParseUint; floats via ParseFloat; slices via the
`parseSlice` logic (byte slices take the raw bytes unsplit, an
all-space value gives the empty slice, anything else is split on `sep`
and coerced elementwise into zero-valued slots); maps via the
`parseMap` logic (an all-space value gives the empty map, otherwise
pair-tokens are split on the first `:` and coerced into zero-valued
key/value slots); the struct case parses a timestamp with the layout
(default RFC3339) when the type is `time.Time` and otherwise falls
through the switch returning the field unchanged with no error; every
remaining kind is the `unsupported type` error naming package path and
name.  `cur` is the field's current contents, returned untouched by
the non-`time.Time` struct case. -/
def parseValue : GoType → GoValue → String → String → Option String → Except GoErr GoValue
  | .stringT, _, value, _, _ => .ok (.vstr value)
  | .boolT, _, value, _, _ => (goParseBool value).map .vbool
  | .intT bits, _, value, _, _ => (goParseInt value bits).map .vint
  | .durationT, _, value, _, _ => (goParseDuration value).map .vint
  | .uintT bits, _, value, _, _ => (goParseUint value bits).map .vuint
  | .floatT bits, _, value, _, _ => goParseFloat value bits
  | .sliceT elem, _, value, sep, layout =>
    if elem.isByteElem then .ok (.vslice ((goStringBytes value).map .vuint))
    else if goTrimSpace value == "" then .ok (.vslice [])
    else
      (parseElems (fun v => parseValue elem (zeroValue elem) v sep layout)
        (goSplit value sep)).map .vslice
  | .mapT kt vt, _, value, sep, layout =>
    if goTrimSpace value == "" then .ok (.vmap [])
    else
      (parseMapPairs (fun x => parseValue kt (zeroValue kt) x sep layout)
        (fun x => parseValue vt (zeroValue vt) x sep layout)
        (goSplit value sep) []).map .vmap
  | .structT pkg nm, cur, value, _, layout =>
    if pkg == "time" && nm == "Time" then
      goTimeParse (layout.getD rfc3339Layout) value
    else .ok cur
  | .otherT pkg nm, _, _, _, _ => .error (.unsupportedType pkg nm)
termination_by structural ty _ _ _ _ => ty

/-! ### Schemas, tags and field metadata -/

/-- The struct tags `readStructMetadata` reads: each `Option` is
`Tag.Lookup` (present/absent), `envRequired` is the presence-only
`env-required` flag, `envDescription` backs `Tag.Get` (which yields
`""` when absent). -/
structure Tags where
  env : Option String := none
  envLayout : Option String := none
  envDefault : Option String := none
  envSeparator : Option String := none
  envDescription : Option String := none
  envRequired : Bool := false
  deriving Repr

/-- One declared field of a configuration struct.  `plain` fields carry
their reflect type and current contents; a field whose type is a struct
other than `time.Time` and declares fields is `nested`, carrying its
sub-fields (a `plain` field of a non-time `structT` type stands for a
struct type declaring no fields).  `exported` is Go exportedness: it
decides both `CanSet` and whether `Addr().Interface()` panics. -/
inductive FieldDecl where
  | plain (nm : String) (tags : Tags) (exported : Bool) (ty : GoType) (value : GoValue)
  | nested (nm : String) (tags : Tags) (exported : Bool) (sub : List FieldDecl)
  deriving Repr

/-- Is this type a struct kind other than `time.Time` (the walker
recurses into these)? -/
def GoType.isNestedStruct : GoType → Bool
  | .structT pkg nm => !(pkg == "time" && nm == "Time")
  | _ => false

/-- Is this type exactly the `time.Time` struct? -/
def GoType.isTimeStruct : GoType → Bool
  | .structT pkg nm => pkg == "time" && nm == "Time"
  | _ => false

/-- A field the walker treats as a leaf: a `plain` field whose type is
not a struct the walker would recurse into (so `time.Time` fields are
leaves). -/
def FieldDecl.isLeafB : FieldDecl → Bool
  | .plain _ _ _ ty _ => !ty.isNestedStruct
  | .nested _ _ _ _ => false

/-- The field's declared name. -/
def FieldDecl.fname : FieldDecl → String
  | .plain nm _ _ _ _ => nm
  | .nested nm _ _ _ => nm

/-- The field's exportedness. -/
def FieldDecl.exportedB : FieldDecl → Bool
  | .plain _ _ e _ _ => e
  | .nested _ _ e _ => e

/-- The metadata record of config.go, one per eligible field: candidate
environment names, field name, the slot's type and current contents
(standing for the `reflect.Value`), default, layout, separator,
description and the required flag. -/
structure Metadata where
  env : List String
  fieldName : String
  fieldType : GoType
  fieldValue : GoValue
  defValue : Option String
  layout : Option String
  separator : String
  description : String
  required : Bool
  deriving Repr

/-- How `readStructMetadata` builds one field's metadata from its tags:
the `env` tag, when present and non-empty, is split on the default
`","` separator into the candidate list; the separator tag falls back
to `","`; the layout is read only for `time.Time` fields; `required`
is tag presence; the description is `Tag.Get`'s value or `""`. -/
def fieldMeta (nm : String) (tags : Tags) (ty : GoType) (value : GoValue) : Metadata :=
  { env := match tags.env with
      | some envs => if envs == "" then [] else goSplit envs ","
      | none => []
    fieldName := nm
    fieldType := ty
    fieldValue := value
    defValue := tags.envDefault
    layout := if ty.isTimeStruct then tags.envLayout else none
    separator := tags.envSeparator.getD ","
    description := tags.envDescription.getD ""
    required := tags.envRequired }

/-! ### The schema walker (`readStructMetadata`) -/

/-- One pass of `readStructMetadata`'s inner field loop over a single
struct: produce this struct's own metadata records in declaration
order, and the sub-field lists of its struct-typed fields (to be
appended to the parsing stack) in declaration order.  Mirrors the Go
loop: a struct-typed field other than `time.Time` is pushed and
skipped (`continue`) — but reaching `fld.Addr().Interface()` on an
unexported field panics, modelled as the `panicUnexported` error;
after the struct test, a field that fails `CanSet` (unexported) is
skipped silently; remaining fields get a metadata record. -/
def walkStep : List FieldDecl → Except GoErr (List Metadata × List (List FieldDecl))
  | [] => .ok ([], [])
  | .nested nm _ exported sub :: fs =>
    if exported then (walkStep fs).map (fun r => (r.1, sub :: r.2))
    else .error (.panicUnexported nm)
  | .plain nm tags exported ty value :: fs =>
    if ty.isNestedStruct then
      if exported then (walkStep fs).map (fun r => (r.1, ([] : List FieldDecl) :: r.2))
      else .error (.panicUnexported nm)
    else if exported then
      (walkStep fs).map (fun r => (fieldMeta nm tags ty value :: r.1, r.2))
    else walkStep fs

mutual
/-- Size of one field declaration (counting nested fields), used to
bound the walker queue's fuel. -/
def fdCount : FieldDecl → Nat
  | .plain _ _ _ _ _ => 1
  | .nested _ _ _ sub => 1 + fdlCount sub

/-- Total size of a field list. -/
def fdlCount : List FieldDecl → Nat
  | [] => 0
  | f :: fs => fdCount f + fdlCount fs
end

/-- The walker's stack loop (`for i := 0; i < len(cfgStack); i++` with
appends at the end): pop the front struct, collect its metadata, and
enqueue its nested structs behind the remaining queue — breadth-first.
One struct is popped per step and every struct ever enqueued is either
the root or a field of the tree, so fuel `fdlCount root + 1` in
`readStructMetadata` makes the `0` case unreachable. -/
def walkQueue : Nat → List (List FieldDecl) → Except GoErr (List Metadata)
  | _, [] => .ok []
  | 0, _ :: _ => .error .outOfFuel
  | fuel + 1, fs :: rest =>
    match walkStep fs with
    | .error e => .error e
    | .ok r =>
      match walkQueue fuel (rest ++ r.2) with
      | .error e => .error e
      | .ok tailMs => .ok (r.1 ++ tailMs)

/-- Model of `Configurator.readStructMetadata` on a schema given as the
root struct's field list (the Go pointer unwrapping and the
`"wrong type"` check for non-struct roots are outside the model: a
schema here is always a struct). -/
def readStructMetadata (root : List FieldDecl) : Except GoErr (List Metadata) :=
  walkQueue (fdlCount root + 1) [root]

/-! ### The resolution driver (`readEnvVars`) and `WithEnvPrefix` -/

/-- Model of `os.LookupEnv` over an explicit environment snapshot
(association list, first binding wins). -/
def envLookup : List (String × String) → String → Option String
  | [], _ => none
  | (k, v) :: rest, nm => if k == nm then some v else envLookup rest nm

/-- The candidate loop of `readEnvVars`: try each candidate name in
order with the prefix prepended; the first name present in the
environment wins. -/
def firstEnvValue (env : List (String × String)) (pfx : String) : List String → Option String
  | [] => none
  | nm :: rest =>
    match envLookup env (pfx ++ nm) with
    | some v => some v
    | none => firstEnvValue env pfx rest

/-- Model of `Configurator.WithEnvPrefix`: the value stored in the
`envPrefix` field — the argument, with `"_"` appended unless it
already ends in `"_"`. -/
def withEnvPrefix (envPfx : String) : String :=
  if goHasSuffix envPfx "_" then envPfx else envPfx ++ "_"

/-- The per-descriptor body of `readEnvVars`' loop: resolve a raw
value (environment first; the default only when no candidate matched
and the slot is zero), fail for a required field whose slot is zero
when no candidate matched (before the default is consulted), leave the
field untouched when nothing resolved, and otherwise coerce with
`parseValue`.  Returns the slot's new contents. -/
def processMeta (env : List (String × String)) (pfx : String) (m : Metadata) :
    Except GoErr GoValue :=
  let rawValue := firstEnvValue env pfx m.env
  if rawValue.isNone && m.required && isZeroV m.fieldValue then
    .error (.requiredFieldMissing m.fieldName)
  else
    let rawValue := if rawValue.isNone && isZeroV m.fieldValue then m.defValue else rawValue
    match rawValue with
    | none => .ok m.fieldValue
    | some raw => parseValue m.fieldType m.fieldValue raw m.separator m.layout

/-- Model of the loop of `Configurator.readEnvVars` over the metadata
sequence: process each descriptor in order, stopping at the first
error; on success the list of the slots' new contents is returned (the
Go code mutates each `fieldValue` in place). -/
def readEnvVars (env : List (String × String)) (pfx : String) :
    List Metadata → Except GoErr (List GoValue)
  | [] => .ok []
  | m :: rest =>
    match processMeta env pfx m with
    | .error e => .error e
    | .ok v =>
      match readEnvVars env pfx rest with
      | .error e => .error e
      | .ok vs => .ok (v :: vs)

/-- Model of `Configurator.readEnvVars` on a schema: walk the struct,
then resolve every descriptor against the environment snapshot with
the configured prefix.  This is the `resolve` operation of the spec. -/
def resolveConfig (env : List (String × String)) (pfx : String) (root : List FieldDecl) :
    Except GoErr (List GoValue) :=
  (readStructMetadata root).bind (readEnvVars env pfx)

/-! ### Helper lemmas -/

/-- Mapping the payload cannot introduce an error. -/
theorem except_map_ne_error {α β : Type} (f : α → β) (x : Except GoErr α) (e : GoErr)
    (h : x ≠ .error e) : x.map f ≠ .error e := by
  cases x with
  | ok a => simp [Except.map]
  | error e' => simpa [Except.map] using h

/-- `parseElems` is exactly monadic traversal: each raw element coerced
in order, first failure aborting the whole list. -/
theorem parseElems_eq_mapM (f : String → Except GoErr GoValue) :
    ∀ l : List String, parseElems f l = l.mapM f := by
  intro l
  induction l with
  | nil => rfl
  | cons v rest ih =>
    rw [List.mapM_cons, ← ih]
    simp only [parseElems]
    cases f v with
    | error e => rfl
    | ok x =>
      cases parseElems f rest with
      | error e => rfl
      | ok xs => rfl

/-- An error of the element loop is an error of some element's
coercion. -/
theorem parseElems_error_mem (f : String → Except GoErr GoValue) (e : GoErr) :
    ∀ l : List String, parseElems f l = .error e → ∃ s ∈ l, f s = .error e := by
  intro l
  induction l with
  | nil => simp [parseElems]
  | cons v rest ih =>
    intro h
    simp only [parseElems] at h
    cases hv : f v with
    | error e' =>
      rw [hv] at h
      cases h
      exact ⟨v, by simp, hv⟩
    | ok x =>
      rw [hv] at h
      cases hr : parseElems f rest with
      | error e' =>
        rw [hr] at h
        cases h
        obtain ⟨s, hs, hfs⟩ := ih hr
        exact ⟨s, by simp [hs], hfs⟩
      | ok xs => rw [hr] at h; cases h

/-- An error of the pair loop is a malformed pair-token or an error of
a key or value coercion. -/
theorem parseMapPairs_error_cases (pk pv : String → Except GoErr GoValue) (e : GoErr) :
    ∀ (l : List String) (acc : List (GoValue × GoValue)),
      parseMapPairs pk pv l acc = .error e →
        (∃ p ∈ l, goSplitFirst p ":" = none ∧ e = .invalidMapItem p) ∨
          (∃ s, pk s = .error e) ∨ (∃ s, pv s = .error e) := by
  intro l
  induction l with
  | nil => intro acc h; simp [parseMapPairs] at h
  | cons pair rest ih =>
    intro acc h
    simp only [parseMapPairs] at h
    split at h
    next hs =>
      cases h
      exact .inl ⟨pair, by simp, hs, rfl⟩
    next kv hs =>
      split at h
      next e' hk =>
        cases h
        exact .inr (.inl ⟨kv.1, hk⟩)
      next k hk =>
        split at h
        next e' hv =>
          cases h
          exact .inr (.inr ⟨kv.2, hv⟩)
        next v hv =>
          rcases ih (mapSet acc k v) h with hp | hpk | hpv
          · obtain ⟨p, hmem, hnone, he⟩ := hp
            exact .inl ⟨p, by simp [hmem], hnone, he⟩
          · exact .inr (.inl hpk)
          · exact .inr (.inr hpv)

/-- The digit loop of ParseUint only fails with a syntax or range
error. -/
theorem parseUintLoop_not_required (fn num : String) (base maxVal cutoff : Nat) (nm : String) :
    ∀ (chars : List Char) (n : Nat) (under : Bool),
      parseUintLoop fn num base maxVal cutoff n under chars ≠ .error (.requiredFieldMissing nm) := by
  intro chars
  induction chars with
  | nil => intro n under; simp [parseUintLoop]
  | cons c rest ih =>
    intro n under
    simp only [parseUintLoop]
    split
    · exact ih n true
    · split
      · simp
      · split
        · simp
        · split
          · simp
          · split
            · simp
            · exact ih _ under

/-- `goParseUintBase0` only fails with a syntax or range error. -/
theorem goParseUintBase0_not_required (fn num : String) (chars : List Char) (bits : Nat)
    (nm : String) : goParseUintBase0 fn num chars bits ≠ .error (.requiredFieldMissing nm) := by
  intro h
  simp only [goParseUintBase0] at h
  split at h
  · simp at h
  · split at h
    next e' heq =>
      cases h
      exact parseUintLoop_not_required fn num _ _ _ nm _ 0 false heq
    next p heq =>
      split at h <;> simp at h

/-- `goParseInt` only fails with a syntax or range error. -/
theorem goParseInt_not_required (s : String) (bits : Nat) (nm : String) :
    goParseInt s bits ≠ .error (.requiredFieldMissing nm) := by
  intro h
  simp only [goParseInt] at h
  split at h
  · simp at h
  · split at h
    next e' heq =>
      cases h
      exact goParseUintBase0_not_required "ParseInt" s _ bits nm heq
    next n heq =>
      split at h
      · simp at h
      · split at h <;> simp at h

/-- `goParseUint` only fails with a syntax or range error. -/
theorem goParseUint_not_required (s : String) (bits : Nat) (nm : String) :
    goParseUint s bits ≠ .error (.requiredFieldMissing nm) :=
  goParseUintBase0_not_required "ParseUint" s s.toList bits nm

/-- `goParseBool` only fails with a syntax error. -/
theorem goParseBool_not_required (s : String) (nm : String) :
    goParseBool s ≠ .error (.requiredFieldMissing nm) := by
  simp only [goParseBool]
  split
  · simp
  · split
    · simp
    · simp

/-- `goParseFloat` only fails with a syntax error. -/
theorem goParseFloat_not_required (s : String) (bits : Nat) (nm : String) :
    goParseFloat s bits ≠ .error (.requiredFieldMissing nm) := by
  simp only [goParseFloat]
  split
  · simp
  · split
    · simp
    · split
      · simp
      · split
        · split
          · simp
          · simp
        · simp

/-- The ParseDuration loop only fails with duration errors. -/
theorem durLoop_not_required (orig : String) (nm : String) :
    ∀ (fuel : Nat) (chars : List Char) (d : Nat),
      durLoop orig d fuel chars ≠ .error (.requiredFieldMissing nm) := by
  intro fuel
  induction fuel with
  | zero =>
    intro chars d
    cases chars with
    | nil => simp [durLoop]
    | cons c cs => simp [durLoop]
  | succ k ih =>
    intro chars d
    cases chars with
    | nil => simp [durLoop]
    | cons c cs =>
      intro h
      simp only [durLoop] at h
      repeat' split at h
      all_goals first
        | exact ih _ _ h
        | simp at h

/-- `goParseDuration` only fails with duration errors. -/
theorem goParseDuration_not_required (s : String) (nm : String) :
    goParseDuration s ≠ .error (.requiredFieldMissing nm) := by
  intro h
  simp only [goParseDuration] at h
  split at h
  · simp at h
  · split at h
    · simp at h
    · split at h
      next e' heq =>
        cases h
        exact durLoop_not_required s nm _ _ 0 heq
      next d heq => simp at h

/-- `parseValue` never produces the required-field error: that error
belongs to the resolution driver alone. -/
theorem parseValue_not_required (nm : String) :
    ∀ (ty : GoType) (cur : GoValue) (raw sep : String) (layout : Option String),
      parseValue ty cur raw sep layout ≠ .error (.requiredFieldMissing nm) := by
  intro ty
  induction ty with
  | stringT => intro cur raw sep layout; simp [parseValue]
  | boolT =>
    intro cur raw sep layout
    exact except_map_ne_error _ _ _ (goParseBool_not_required raw nm)
  | intT bits =>
    intro cur raw sep layout
    exact except_map_ne_error _ _ _ (goParseInt_not_required raw bits nm)
  | durationT =>
    intro cur raw sep layout
    exact except_map_ne_error _ _ _ (goParseDuration_not_required raw nm)
  | uintT bits =>
    intro cur raw sep layout
    exact except_map_ne_error _ _ _ (goParseUint_not_required raw bits nm)
  | floatT bits =>
    intro cur raw sep layout
    exact goParseFloat_not_required raw bits nm
  | sliceT elem ih =>
    intro cur raw sep layout
    simp only [parseValue]
    split
    · simp
    · split
      · simp
      · refine except_map_ne_error _ _ _ (fun h => ?_)
        obtain ⟨s, _, hfs⟩ := parseElems_error_mem _ _ _ h
        exact ih (zeroValue elem) s sep layout hfs
  | mapT kt vt ihk ihv =>
    intro cur raw sep layout
    simp only [parseValue]
    split
    · simp
    · refine except_map_ne_error _ _ _ (fun h => ?_)
      rcases parseMapPairs_error_cases _ _ _ _ _ h with hp | hpk | hpv
      · obtain ⟨p, _, _, he⟩ := hp
        cases he
      · obtain ⟨s, hs⟩ := hpk
        exact ihk (zeroValue kt) s sep layout hs
      · obtain ⟨s, hs⟩ := hpv
        exact ihv (zeroValue vt) s sep layout hs
  | structT pkg tn =>
    intro cur raw sep layout
    simp only [parseValue]
    split
    · simp [goTimeParse]
    · simp
  | otherT pkg tn =>
    intro cur raw sep layout
    simp [parseValue]

/-- The per-field resolution rule as the specification states it: the
slot's final value is the coerced value of the first matching candidate
environment variable (prefix prepended); else, when the slot was zero
and a default is declared, the coerced default; else the prior value
unchanged. -/
def resolvedAs (env : List (String × String)) (pfx : String) (m : Metadata) (v : GoValue) :
    Prop :=
  match firstEnvValue env pfx m.env with
  | some raw => parseValue m.fieldType m.fieldValue raw m.separator m.layout = .ok v
  | none =>
    if isZeroV m.fieldValue then
      match m.defValue with
      | some d => parseValue m.fieldType m.fieldValue d m.separator m.layout = .ok v
      | none => v = m.fieldValue
    else v = m.fieldValue

/-- A successful `processMeta` run satisfies the specification's
resolution rule. -/
theorem processMeta_ok_resolved (env : List (String × String)) (pfx : String) (m : Metadata)
    (v : GoValue) (h : processMeta env pfx m = .ok v) : resolvedAs env pfx m v := by
  simp only [resolvedAs]
  cases hE : firstEnvValue env pfx m.env with
  | some raw =>
    simp only [processMeta, hE, Option.isNone_some, Bool.false_and, Bool.and_false,
      Bool.false_eq_true, if_false] at h
    exact h
  | none =>
    cases hZ : isZeroV m.fieldValue with
    | true =>
      cases hR : m.required with
      | true => simp [processMeta, hE, hZ, hR] at h
      | false =>
        cases hD : m.defValue with
        | none =>
          simp [processMeta, hE, hZ, hR, hD] at h
          simp [hD, h]
        | some d =>
          simp only [processMeta, hE, hZ, hR, hD, Option.isNone_none, Bool.true_and,
            Bool.and_false, Bool.false_and, Bool.and_true, Bool.false_eq_true, if_false,
            if_true] at h
          simp only [hD, if_true]
          exact h
    | false =>
      simp [processMeta, hE, hZ] at h
      simp [h]

/-- A successful `readEnvVars` run resolves every descriptor to its
specified value, in order. -/
theorem readEnvVars_ok_forall (env : List (String × String)) (pfx : String) :
    ∀ (ms : List Metadata) (vs : List GoValue),
      readEnvVars env pfx ms = .ok vs → List.Forall₂ (resolvedAs env pfx) ms vs := by
  intro ms
  induction ms with
  | nil =>
    intro vs h
    cases h
    exact List.Forall₂.nil
  | cons m rest ih =>
    intro vs h
    simp only [readEnvVars] at h
    split at h
    · simp at h
    next v hv =>
      split at h
      · simp at h
      next vs' hvs =>
        cases h
        exact List.Forall₂.cons (processMeta_ok_resolved env pfx m v hv) (ih vs' hvs)

/-- `processMeta` fails with the required-field error exactly when no
candidate environment variable matched, the field is required and the
slot is zero — a declared default does not enter this test. -/
theorem processMeta_required_iff (env : List (String × String)) (pfx : String) (m : Metadata) :
    processMeta env pfx m = .error (.requiredFieldMissing m.fieldName) ↔
      firstEnvValue env pfx m.env = none ∧ m.required = true ∧
        isZeroV m.fieldValue = true := by
  constructor
  · intro h
    cases hE : firstEnvValue env pfx m.env with
    | some raw =>
      simp only [processMeta, hE, Option.isNone_some, Bool.false_and, Bool.and_false,
        Bool.false_eq_true, if_false] at h
      exact absurd h (parseValue_not_required m.fieldName m.fieldType m.fieldValue raw
        m.separator m.layout)
    | none =>
      cases hZ : isZeroV m.fieldValue with
      | true =>
        cases hR : m.required with
        | true => exact ⟨rfl, rfl, rfl⟩
        | false =>
          cases hD : m.defValue with
          | none => simp [processMeta, hE, hZ, hR, hD] at h
          | some d =>
            simp only [processMeta, hE, hZ, hR, hD, Option.isNone_none, Bool.true_and,
              Bool.and_false, Bool.false_and, Bool.and_true, Bool.false_eq_true, if_false,
              if_true] at h
            exact absurd h (parseValue_not_required m.fieldName m.fieldType m.fieldValue d
              m.separator m.layout)
      | false => simp [processMeta, hE, hZ] at h
  · rintro ⟨hE, hR, hZ⟩
    simp [processMeta, hE, hR, hZ]

/-- On one descriptor, `readEnvVars` fails with the required-field
error exactly when its `processMeta` does. -/
theorem readEnvVars_singleton_required_iff (env : List (String × String)) (pfx : String)
    (m : Metadata) :
    readEnvVars env pfx [m] = .error (.requiredFieldMissing m.fieldName) ↔
      processMeta env pfx m = .error (.requiredFieldMissing m.fieldName) := by
  simp only [readEnvVars]
  cases hP : processMeta env pfx m with
  | error e => simp
  | ok v => simp

/-! ### Walker lemmas -/

/-- The metadata the walker collects from one struct's own fields (no
recursion): exported leaf and `time.Time` fields, in declaration
order. -/
def ownMetas : List FieldDecl → List Metadata
  | [] => []
  | .plain nm tags true ty value :: fs =>
    if ty.isNestedStruct then ownMetas fs else fieldMeta nm tags ty value :: ownMetas fs
  | _ :: fs => ownMetas fs

/-- The sub-field lists the walker pushes for one struct's fields:
those of its exported struct-typed fields in declaration order (a
`plain` field of an empty non-time struct type contributes an empty
list). -/
def ownSubs : List FieldDecl → List (List FieldDecl)
  | [] => []
  | .nested _ _ true sub :: fs => sub :: ownSubs fs
  | .plain _ _ true ty _ :: fs =>
    if ty.isNestedStruct then ([] : List FieldDecl) :: ownSubs fs else ownSubs fs
  | _ :: fs => ownSubs fs

/-- This field cannot make the walker panic: it is either not a
struct-typed field, or it is exported. -/
def FieldDecl.structOkB : FieldDecl → Bool
  | .plain _ _ e ty _ => !ty.isNestedStruct || e
  | .nested _ _ e _ => e

/-- When no struct-typed field is inaccessible, one walker pass over a
struct succeeds with exactly its own metadata and sub-lists. -/
theorem walkStep_ok : ∀ fs : List FieldDecl, fs.all FieldDecl.structOkB = true →
    walkStep fs = .ok (ownMetas fs, ownSubs fs) := by
  intro fs
  induction fs with
  | nil => intro _; rfl
  | cons f rest ih =>
    intro h
    simp only [List.all_cons, Bool.and_eq_true] at h
    obtain ⟨hf, hrest⟩ := h
    cases f with
    | nested nm tags e sub =>
      simp only [FieldDecl.structOkB] at hf
      cases e with
      | false => simp at hf
      | true =>
        simp only [walkStep, if_true, ownMetas, ownSubs]
        rw [ih hrest]
        rfl
    | plain nm tags e ty value =>
      cases hN : ty.isNestedStruct with
      | true =>
        simp only [FieldDecl.structOkB, hN, Bool.not_true, Bool.false_or] at hf
        cases e with
        | false => simp at hf
        | true =>
          simp only [walkStep, hN, if_true, ownMetas, ownSubs]
          rw [ih hrest]
          rfl
      | false =>
        cases e with
        | true =>
          simp only [walkStep, hN, Bool.false_eq_true, if_false, if_true, ownMetas, ownSubs]
          rw [ih hrest]
          rfl
        | false =>
          simp only [walkStep, hN, Bool.false_eq_true, if_false]
          rw [ih hrest]
          simp only [ownMetas, ownSubs]

/-- A leaf field is never a struct-typed field the walker recurses
into. -/
theorem isLeaf_structOk : ∀ f : FieldDecl, f.isLeafB = true → f.structOkB = true := by
  intro f h
  cases f with
  | plain nm tags e ty value =>
    simp only [FieldDecl.isLeafB] at h
    simp [FieldDecl.structOkB, h]
  | nested nm tags e sub => simp [FieldDecl.isLeafB] at h

/-- Leaf-only field lists have no inaccessible struct fields. -/
theorem all_leaf_structOk (fs : List FieldDecl) (h : fs.all FieldDecl.isLeafB = true) :
    fs.all FieldDecl.structOkB = true := by
  rw [List.all_eq_true] at h ⊢
  exact fun f hf => isLeaf_structOk f (h f hf)

/-- Leaf-only field lists push nothing onto the walker queue. -/
theorem ownSubs_leaf : ∀ fs : List FieldDecl, fs.all FieldDecl.isLeafB = true →
    ownSubs fs = [] := by
  intro fs
  induction fs with
  | nil => intro _; rfl
  | cons f rest ih =>
    intro h
    simp only [List.all_cons, Bool.and_eq_true] at h
    obtain ⟨hf, hrest⟩ := h
    cases f with
    | nested nm tags e sub => simp [FieldDecl.isLeafB] at hf
    | plain nm tags e ty value =>
      simp only [FieldDecl.isLeafB, Bool.not_eq_true'] at hf
      cases e with
      | true => simp only [ownSubs, hf, Bool.false_eq_true, if_false]; exact ih hrest
      | false => simp only [ownSubs]; exact ih hrest

/-- The walker on a leaf-only schema: one queue pop, producing exactly
the exported fields' metadata. -/
theorem readStructMetadata_leaf (fields : List FieldDecl)
    (h : fields.all FieldDecl.isLeafB = true) :
    readStructMetadata fields = .ok (ownMetas fields) := by
  have hs := walkStep_ok fields (all_leaf_structOk fields h)
  rw [ownSubs_leaf fields h] at hs
  simp only [readStructMetadata, walkQueue]
  rw [hs]
  simp [walkQueue]

/-- A queue of leaf-only structs is drained in order, one pop each,
concatenating their metadata. -/
theorem walkQueue_leafLists :
    ∀ (subs : List (List FieldDecl)) (fuel : Nat),
      (∀ l ∈ subs, l.all FieldDecl.isLeafB = true) → subs.length ≤ fuel →
        walkQueue fuel subs = .ok ((subs.map ownMetas).flatten) := by
  intro subs
  induction subs with
  | nil => intro fuel _ _; simp [walkQueue]
  | cons l rest ih =>
    intro fuel hAll hLen
    cases fuel with
    | zero => simp at hLen
    | succ k =>
      have hl := hAll l (by simp)
      have hstep := walkStep_ok l (all_leaf_structOk l hl)
      rw [ownSubs_leaf l hl] at hstep
      have hrec := ih k (fun x hx => hAll x (by simp [hx])) (by simpa using hLen)
      simp [walkQueue, hstep, List.append_nil, hrec]

/-- The walker pushes at most one sub-list per field. -/
theorem ownSubs_length_le : ∀ fs : List FieldDecl, (ownSubs fs).length ≤ fs.length := by
  intro fs
  induction fs with
  | nil => simp [ownSubs]
  | cons f rest ih =>
    cases f with
    | nested nm tags e sub =>
      cases e with
      | true => simpa [ownSubs] using ih
      | false =>
        simp only [ownSubs, List.length_cons]
        exact Nat.le_succ_of_le ih
    | plain nm tags e ty value =>
      cases e with
      | true =>
        by_cases hN : ty.isNestedStruct = true
        · simpa [ownSubs, hN] using ih
        · simp only [ownSubs, Bool.not_eq_true] at hN
          simp only [ownSubs, hN, Bool.false_eq_true, if_false, List.length_cons]
          exact Nat.le_succ_of_le ih
      | false =>
        simp only [ownSubs, List.length_cons]
        exact Nat.le_succ_of_le ih

/-- Every field counts at least one in the queue-fuel measure. -/
theorem length_le_fdlCount : ∀ fs : List FieldDecl, fs.length ≤ fdlCount fs := by
  intro fs
  induction fs with
  | nil => simp [fdlCount]
  | cons f rest ih =>
    have h1 : 1 ≤ fdCount f := by
      cases f with
      | plain nm tags e ty value => simp [fdCount]
      | nested nm tags e sub => simp [fdCount]
    simp only [fdlCount, List.length_cons]
    omega

/-- A field of a two-level schema: any non-struct leaf, or an exported
nested struct whose fields are all leaves. -/
def FieldDecl.twoLevelOkB : FieldDecl → Bool
  | .plain _ _ _ ty _ => !ty.isNestedStruct
  | .nested _ _ e sub => e && sub.all FieldDecl.isLeafB

/-- Two-level fields never make the walker panic. -/
theorem twoLevel_structOk (fs : List FieldDecl) (h : fs.all FieldDecl.twoLevelOkB = true) :
    fs.all FieldDecl.structOkB = true := by
  rw [List.all_eq_true] at h ⊢
  intro f hf
  have := h f hf
  cases f with
  | plain nm tags e ty value =>
    simp only [FieldDecl.twoLevelOkB] at this
    simp [FieldDecl.structOkB, this]
  | nested nm tags e sub =>
    simp only [FieldDecl.twoLevelOkB, Bool.and_eq_true] at this
    simp [FieldDecl.structOkB, this.1]

/-- In a two-level schema every pushed sub-list is leaf-only. -/
theorem twoLevel_subs_leaf : ∀ fs : List FieldDecl, fs.all FieldDecl.twoLevelOkB = true →
    ∀ l ∈ ownSubs fs, l.all FieldDecl.isLeafB = true := by
  intro fs
  induction fs with
  | nil => intro _ l hl; simp [ownSubs] at hl
  | cons f rest ih =>
    intro h l hl
    simp only [List.all_cons, Bool.and_eq_true] at h
    obtain ⟨hf, hrest⟩ := h
    cases f with
    | nested nm tags e sub =>
      simp only [FieldDecl.twoLevelOkB, Bool.and_eq_true] at hf
      obtain ⟨he, hsub⟩ := hf
      cases e with
      | false => simp at he
      | true =>
        simp only [ownSubs, List.mem_cons] at hl
        cases hl with
        | inl heq => rw [heq]; exact hsub
        | inr hmem => exact ih hrest l hmem
    | plain nm tags e ty value =>
      simp only [FieldDecl.twoLevelOkB, Bool.not_eq_true'] at hf
      cases e with
      | true =>
        simp only [ownSubs, hf, Bool.false_eq_true, if_false] at hl
        exact ih hrest l hl
      | false =>
        simp only [ownSubs] at hl
        exact ih hrest l hl

/-- Dropping the inaccessible fields of a struct changes none of its
collected metadata: the walker produces no descriptor for them. -/
theorem ownMetas_filter_exported : ∀ fs : List FieldDecl,
    ownMetas (fs.filter FieldDecl.exportedB) = ownMetas fs := by
  intro fs
  induction fs with
  | nil => rfl
  | cons f rest ih =>
    cases f with
    | nested nm tags e sub =>
      cases e with
      | true => simpa [List.filter, FieldDecl.exportedB, ownMetas] using ih
      | false => simpa [List.filter, FieldDecl.exportedB, ownMetas] using ih
    | plain nm tags e ty value =>
      cases e with
      | true => simp [List.filter, FieldDecl.exportedB, ownMetas, ih]
      | false => simpa [List.filter, FieldDecl.exportedB, ownMetas] using ih

/-- The walker panics at the first inaccessible nested struct field:
leaf fields before it (exported or not) cannot save it. -/
theorem walkStep_panic (nm : String) (tags : Tags) (sub post : List FieldDecl) :
    ∀ pre : List FieldDecl, pre.all FieldDecl.isLeafB = true →
      walkStep (pre ++ FieldDecl.nested nm tags false sub :: post) =
        .error (.panicUnexported nm) := by
  intro pre
  induction pre with
  | nil => intro _; simp [walkStep]
  | cons f rest ih =>
    intro h
    simp only [List.all_cons, Bool.and_eq_true] at h
    obtain ⟨hf, hrest⟩ := h
    cases f with
    | nested nm' tags' e' sub' => simp [FieldDecl.isLeafB] at hf
    | plain nm' tags' e' ty value =>
      simp only [FieldDecl.isLeafB, Bool.not_eq_true'] at hf
      cases e' with
      | true =>
        simp only [List.cons_append, walkStep, hf, Bool.false_eq_true, if_false, if_true,
          List.append_eq]
        rw [ih hrest]
        rfl
      | false =>
        simp only [List.cons_append, walkStep, hf, Bool.false_eq_true, if_false,
          List.append_eq]
        exact ih hrest

/-! ### Breadth-first characterization of the walker -/

/-- Fuel measure of a walker queue: one per queued struct plus the
size of its field tree. -/
def sizeQ (q : List (List FieldDecl)) : Nat :=
  (q.map (fun l => 1 + fdlCount l)).sum

/-- `sizeQ` on a cons. -/
theorem sizeQ_cons (l : List FieldDecl) (q : List (List FieldDecl)) :
    sizeQ (l :: q) = 1 + fdlCount l + sizeQ q := by
  simp [sizeQ]

/-- `sizeQ` on an append. -/
theorem sizeQ_append (a b : List (List FieldDecl)) : sizeQ (a ++ b) = sizeQ a + sizeQ b := by
  simp [sizeQ]

/-- What a struct pushes weighs no more than its own field tree, so
each queue pop strictly shrinks the measure. -/
theorem sizeQ_ownSubs_le : ∀ fs : List FieldDecl, sizeQ (ownSubs fs) ≤ fdlCount fs := by
  intro fs
  induction fs with
  | nil => simp [ownSubs, sizeQ]
  | cons f rest ih =>
    cases f with
    | nested nm tags e sub =>
      cases e with
      | true =>
        simp only [ownSubs, sizeQ_cons, fdlCount, fdCount]
        omega
      | false =>
        simp only [ownSubs, fdlCount, fdCount]
        omega
    | plain nm tags e ty value =>
      cases e with
      | true =>
        by_cases hN : ty.isNestedStruct = true
        · simp only [ownSubs, hN, if_true, sizeQ_cons, fdlCount, fdCount]
          omega
        · simp only [Bool.not_eq_true] at hN
          simp only [ownSubs, hN, Bool.false_eq_true, if_false, fdlCount, fdCount]
          omega
      | false =>
        simp only [ownSubs, fdlCount, fdCount]
        omega

mutual
/-- Every struct-typed field in this field's subtree is accessible —
an inaccessible one makes the walker panic (claim C9), so this is the
exact condition under which the walk completes. -/
def FieldDecl.deepOkB : FieldDecl → Bool
  | .plain _ _ e ty _ => !ty.isNestedStruct || e
  | .nested _ _ e sub => e && deepOkList sub

/-- `deepOkB` over a whole field list. -/
def deepOkList : List FieldDecl → Bool
  | [] => true
  | f :: fs => f.deepOkB && deepOkList fs
end

/-- Deep accessibility gives panic-freedom of one walker pass. -/
theorem deepOk_structOk : ∀ fs : List FieldDecl, deepOkList fs = true →
    fs.all FieldDecl.structOkB = true := by
  intro fs
  induction fs with
  | nil => intro _; rfl
  | cons f rest ih =>
    intro h
    simp only [deepOkList, Bool.and_eq_true] at h
    obtain ⟨hf, hrest⟩ := h
    simp only [List.all_cons, Bool.and_eq_true]
    refine ⟨?_, ih hrest⟩
    cases f with
    | plain nm tags e ty value => simpa [FieldDecl.deepOkB, FieldDecl.structOkB] using hf
    | nested nm tags e sub =>
      simp only [FieldDecl.deepOkB, Bool.and_eq_true] at hf
      simp [FieldDecl.structOkB, hf.1]

/-- Deep accessibility is preserved by the sub-lists a struct pushes. -/
theorem deepOk_ownSubs : ∀ fs : List FieldDecl, deepOkList fs = true →
    ∀ l ∈ ownSubs fs, deepOkList l = true := by
  intro fs
  induction fs with
  | nil => intro _ l hl; simp [ownSubs] at hl
  | cons f rest ih =>
    intro h l hl
    simp only [deepOkList, Bool.and_eq_true] at h
    obtain ⟨hf, hrest⟩ := h
    cases f with
    | nested nm tags e sub =>
      simp only [FieldDecl.deepOkB, Bool.and_eq_true] at hf
      obtain ⟨he, hsub⟩ := hf
      subst he
      simp only [ownSubs, List.mem_cons] at hl
      rcases hl with heq | hmem
      · rw [heq]; exact hsub
      · exact ih hrest l hmem
    | plain nm tags e ty value =>
      by_cases hN : ty.isNestedStruct = true
      · simp only [FieldDecl.deepOkB, hN, Bool.not_true, Bool.false_or] at hf
        subst hf
        simp only [ownSubs, hN, if_true, List.mem_cons] at hl
        rcases hl with heq | hmem
        · rw [heq]; rfl
        · exact ih hrest l hmem
      · simp only [Bool.not_eq_true] at hN
        cases e with
        | true =>
          simp only [ownSubs, hN, Bool.false_eq_true, if_false] at hl
          exact ih hrest l hl
        | false =>
          simp only [ownSubs] at hl
          exact ih hrest l hl

/-- The walker's stack traversal with the fuel and error bookkeeping
stripped: pop the front struct, emit its own metadata, enqueue what it
pushes behind the rest.  Total by well-founded recursion on the queue
measure; `c3_breadth_first` proves it is exactly what
`readStructMetadata` computes on deeply accessible schemas of any
nesting depth. -/
def walkSpec (q : List (List FieldDecl)) : List Metadata :=
  match q with
  | [] => []
  | fs :: rest => ownMetas fs ++ walkSpec (rest ++ ownSubs fs)
termination_by sizeQ q
decreasing_by
  simp only [sizeQ_append, sizeQ_cons]
  have := sizeQ_ownSubs_le fs
  omega

/-- Unfolding `walkSpec` on the empty queue. -/
theorem walkSpec_nil : walkSpec [] = [] := by
  rw [walkSpec]

/-- Unfolding `walkSpec` on one pop. -/
theorem walkSpec_cons (fs : List FieldDecl) (rest : List (List FieldDecl)) :
    walkSpec (fs :: rest) = ownMetas fs ++ walkSpec (rest ++ ownSubs fs) := by
  rw [walkSpec]

/-- With enough fuel for the queue measure and a deeply accessible
queue, the walker computes `walkSpec` — in particular it never errs
and never exhausts its fuel. -/
theorem walkQueue_walkSpec :
    ∀ (n : Nat) (q : List (List FieldDecl)),
      (∀ l ∈ q, deepOkList l = true) → sizeQ q ≤ n →
        walkQueue n q = .ok (walkSpec q) := by
  intro n
  induction n with
  | zero =>
    intro q hOk hSize
    cases q with
    | nil => simp [walkQueue, walkSpec_nil]
    | cons l rest => rw [sizeQ_cons] at hSize; omega
  | succ k ih =>
    intro q hOk hSize
    cases q with
    | nil => simp [walkQueue, walkSpec_nil]
    | cons fs rest =>
      have hfs := hOk fs (by simp)
      have hstep := walkStep_ok fs (deepOk_structOk fs hfs)
      have hOk' : ∀ l ∈ rest ++ ownSubs fs, deepOkList l = true := by
        intro l hl
        rcases List.mem_append.mp hl with h | h
        · exact hOk l (by simp [h])
        · exact deepOk_ownSubs fs hfs l h
      have hSize' : sizeQ (rest ++ ownSubs fs) ≤ k := by
        have h1 := sizeQ_ownSubs_le fs
        rw [sizeQ_append]
        rw [sizeQ_cons] at hSize
        omega
      have hrec := ih (rest ++ ownSubs fs) hOk' hSize'
      simp [walkQueue, hstep, hrec, walkSpec_cons]

/-- The accumulation law behind breadth-first order: the metadata of
every struct currently queued, grouped per struct in queue order,
precedes everything produced from what those structs push. -/
theorem walkSpec_levels :
    ∀ q r : List (List FieldDecl),
      walkSpec (q ++ r)
        = (q.map ownMetas).flatten ++ walkSpec (r ++ (q.map ownSubs).flatten) := by
  intro q
  induction q with
  | nil => intro r; simp
  | cons fs q' ih =>
    intro r
    rw [List.cons_append, walkSpec_cons, List.append_assoc, ih (r ++ ownSubs fs)]
    simp [List.append_assoc]

/-- The breadth-first level law: a queue's output is all of its
structs' own leaf descriptors (grouped per struct, in queue order)
followed by the full output of the next level's queue. -/
theorem walkSpec_level_law (q : List (List FieldDecl)) :
    walkSpec q = (q.map ownMetas).flatten ++ walkSpec ((q.map ownSubs).flatten) := by
  have h := walkSpec_levels q []
  simpa using h

/-! ### The claims -/

/-- C1: for every schema whose fields are all leaf fields and every
environment snapshot, `resolve` (the model of `readEnvVars` over the
walked schema) followed by re-reading each produced slot yields: the
coerced value of the first candidate environment name (with the
configured prefix prepended) present in the environment if any is
present, else the coerced default value if the slot was zero and a
default is declared, else the field's prior value unchanged
(`resolvedAs` states exactly this disjunction per descriptor). -/
theorem c1_leaf_resolution (env : List (String × String)) (pfx : String)
    (fields : List FieldDecl) (vs : List GoValue)
    (hleaf : fields.all FieldDecl.isLeafB = true)
    (hok : resolveConfig env pfx fields = .ok vs) :
    readStructMetadata fields = .ok (ownMetas fields) ∧
      List.Forall₂ (resolvedAs env pfx) (ownMetas fields) vs := by
  have hw := readStructMetadata_leaf fields hleaf
  refine ⟨hw, ?_⟩
  have hre : readEnvVars env pfx (ownMetas fields) = .ok vs := by
    simpa [resolveConfig, hw, Except.bind] using hok
  exact readEnvVars_ok_forall env pfx (ownMetas fields) vs hre

/-- Concrete leaf-only schema for the C1 witness: an environment hit,
a default applied to a zero slot, and a non-zero slot left alone. -/
def c1exSchema : List FieldDecl :=
  [ FieldDecl.plain "Host" { env := some "HOST" } true .stringT (.vstr ""),
    FieldDecl.plain "Port" { env := some "PORT", envDefault := some "9090" } true
      (.intT 64) (.vint 0),
    FieldDecl.plain "Kept" {} true .stringT (.vstr "file-value") ]

/-- Witness for C1: the three-way rule at a concrete schema and
environment snapshot. -/
theorem c1_leaf_resolution_witness :
    readStructMetadata c1exSchema = .ok (ownMetas c1exSchema) ∧
      List.Forall₂ (resolvedAs [("APP_HOST", "example.com")] "APP_") (ownMetas c1exSchema)
        [.vstr "example.com", .vint 9090, .vstr "file-value"] :=
  c1_leaf_resolution [("APP_HOST", "example.com")] "APP_" c1exSchema
    [.vstr "example.com", .vint 9090, .vstr "file-value"] rfl rfl

/-- C2 counterexample: a required field whose slot is zero, with no
environment match but with a declared default, fails with
`RequiredFieldMissing` — the declared default does not rescue it,
refuting the claim's "resolves successfully via the default and does
not fail". -/
theorem c2_counterexample :
    (fieldMeta "Port" { envDefault := some "8080", envRequired := true } (.intT 64)
        (.vint 0)).defValue = some "8080" ∧
      readEnvVars [] ""
          [fieldMeta "Port" { envDefault := some "8080", envRequired := true } (.intT 64)
            (.vint 0)]
        = .error (.requiredFieldMissing "Port") :=
  ⟨rfl, rfl⟩

/-- Once every earlier descriptor has resolved, a descriptor meeting
the required-failure condition aborts the whole pass with its error. -/
theorem readEnvVars_append_required (env : List (String × String)) (pfx : String) :
    ∀ (pre : List Metadata) (m : Metadata) (rest : List Metadata),
      (∀ p ∈ pre, ∃ v, processMeta env pfx p = .ok v) →
      processMeta env pfx m = .error (.requiredFieldMissing m.fieldName) →
        readEnvVars env pfx (pre ++ m :: rest)
          = .error (.requiredFieldMissing m.fieldName) := by
  intro pre
  induction pre with
  | nil =>
    intro m rest _ hm
    simp [readEnvVars, hm]
  | cons p pre' ih =>
    intro m rest hpre hm
    obtain ⟨v, hv⟩ := hpre p (by simp)
    have hrec := ih m rest (fun q hq => hpre q (by simp [hq])) hm
    simp [readEnvVars, hv, hrec]

/-- C2 (amended): resolution fails with `RequiredFieldMissing` for a
descriptor if and only if no candidate environment variable (prefix
prepended) matches, the field is marked required, and its slot is zero
— independently of any declared default, which the driver consults
only after the required check; and a descriptor meeting this
condition, placed after descriptors that all resolve, aborts the whole
pass with exactly that error. -/
theorem c2_required_iff (env : List (String × String)) (pfx : String) :
    (∀ m : Metadata,
      readEnvVars env pfx [m] = .error (.requiredFieldMissing m.fieldName) ↔
        firstEnvValue env pfx m.env = none ∧ m.required = true ∧
          isZeroV m.fieldValue = true) ∧
      (∀ (pre : List Metadata) (m : Metadata) (rest : List Metadata),
        (∀ p ∈ pre, ∃ v, processMeta env pfx p = .ok v) →
        firstEnvValue env pfx m.env = none → m.required = true →
        isZeroV m.fieldValue = true →
          readEnvVars env pfx (pre ++ m :: rest)
            = .error (.requiredFieldMissing m.fieldName)) := by
  constructor
  · intro m
    exact (readEnvVars_singleton_required_iff env pfx m).trans
      (processMeta_required_iff env pfx m)
  · intro pre m rest hpre hE hR hZ
    exact readEnvVars_append_required env pfx pre m rest hpre
      ((processMeta_required_iff env pfx m).mpr ⟨hE, hR, hZ⟩)

/-- Witness for the amended C2: after a successfully resolved field, a
required zero field with a declared default but no environment match
aborts the pass with the required-field error. -/
theorem c2_required_iff_witness :
    readEnvVars [] ""
        ([fieldMeta "Host" {} .stringT (.vstr "h")] ++
          fieldMeta "Port" { envDefault := some "8080", envRequired := true } (.intT 64)
            (.vint 0) :: [])
      = .error (.requiredFieldMissing "Port") :=
  (c2_required_iff [] "").2 [fieldMeta "Host" {} .stringT (.vstr "h")]
    (fieldMeta "Port" { envDefault := some "8080", envRequired := true } (.intT 64)
      (.vint 0)) []
    (by
      intro p hp
      simp only [List.mem_singleton] at hp
      exact ⟨.vstr "h", by rw [hp]; rfl⟩)
    rfl rfl rfl

/-- C3 counterexample: on the nested schema `{A; B struct {X; Y}; C}`
the walker emits descriptors in the order A, C, X, Y — the nested
leaves X and Y come after the later sibling C, not at B's declaration
position, refuting depth-first flattening. -/
theorem c3_counterexample :
    (readStructMetadata
        [ FieldDecl.plain "A" { env := some "A" } true .stringT (.vstr ""),
          FieldDecl.nested "B" {} true
            [ FieldDecl.plain "X" { env := some "X" } true .stringT (.vstr ""),
              FieldDecl.plain "Y" {} true (.intT 64) (.vint 0) ],
          FieldDecl.plain "C" {} true .boolT (.vbool false) ]).map
        (List.map Metadata.fieldName)
      = .ok ["A", "C", "X", "Y"] ∧ ["A", "C", "X", "Y"] ≠ ["A", "X", "Y", "C"] :=
  ⟨rfl, by decide⟩

/-- C3 (amended): for every nested schema, of any nesting depth, all
of whose struct-typed fields are accessible (an inaccessible nested
struct field instead aborts the walk — claim C9), the walker flattens
the schema breadth-first, not depth-first: it computes `walkSpec`, the
queue traversal that emits each struct's own leaf descriptors and
appends its nested structs behind the remaining queue; `walkSpec`
obeys the level law — all descriptors of the queued structs, grouped
per struct in queue order, precede every descriptor produced from
their nested structs — so a nested struct field's leaf descriptors
appear after all of the enclosing struct's own fields, later siblings
included, not at the nested field's position; in particular, on
two-level schemas the output is the root's own leaf descriptors
followed by each nested struct's leaf descriptors grouped in
declaration order. -/
theorem c3_breadth_first :
    (∀ fields : List FieldDecl, deepOkList fields = true →
        readStructMetadata fields = .ok (walkSpec [fields])) ∧
      (∀ q : List (List FieldDecl),
        walkSpec q = (q.map ownMetas).flatten ++ walkSpec ((q.map ownSubs).flatten)) ∧
      (∀ fields : List FieldDecl, fields.all FieldDecl.twoLevelOkB = true →
        readStructMetadata fields
          = .ok (ownMetas fields ++ ((ownSubs fields).map ownMetas).flatten)) := by
  refine ⟨?_, walkSpec_level_law, ?_⟩
  · intro fields h
    have hsz : sizeQ [fields] ≤ fdlCount fields + 1 := by
      rw [sizeQ_cons]
      simp only [sizeQ, List.map_nil, List.sum_nil]
      omega
    exact walkQueue_walkSpec (fdlCount fields + 1) [fields]
      (by intro l hl; simp only [List.mem_singleton] at hl; rw [hl]; exact h) hsz
  · intro fields h
    have hstep := walkStep_ok fields (twoLevel_structOk fields h)
    have hq := walkQueue_leafLists (ownSubs fields) (fdlCount fields)
      (twoLevel_subs_leaf fields h)
      (le_trans (ownSubs_length_le fields) (length_le_fdlCount fields))
    simp [readStructMetadata, walkQueue, hstep, hq]

/-- Concrete two-level schema for the C3 witness. -/
def c3exSchema : List FieldDecl :=
  [ FieldDecl.plain "Name" { env := some "NAME" } true .stringT (.vstr ""),
    FieldDecl.nested "Server" {} true
      [ FieldDecl.plain "Addr" { env := some "ADDR" } true .stringT (.vstr ""),
        FieldDecl.plain "Port" {} true (.intT 64) (.vint 0) ],
    FieldDecl.nested "Log" {} true
      [ FieldDecl.plain "Level" {} true .stringT (.vstr "") ],
    FieldDecl.plain "Debug" {} true .boolT (.vbool false) ]

/-- Concrete depth-three schema for the C3 witness. -/
def c3deepSchema : List FieldDecl :=
  [ FieldDecl.plain "A" {} true .stringT (.vstr ""),
    FieldDecl.nested "B" {} true
      [ FieldDecl.plain "E" {} true .stringT (.vstr ""),
        FieldDecl.nested "F" {} true
          [ FieldDecl.plain "Z" {} true (.intT 64) (.vint 0) ] ],
    FieldDecl.plain "D" {} true .boolT (.vbool false) ]

/-- Witness for the amended C3: the general statement applied at a
depth-three schema and the two-level formula at a two-level schema. -/
theorem c3_breadth_first_witness :
    readStructMetadata c3deepSchema = .ok (walkSpec [c3deepSchema]) ∧
      readStructMetadata c3exSchema
        = .ok (ownMetas c3exSchema ++ ((ownSubs c3exSchema).map ownMetas).flatten) :=
  ⟨c3_breadth_first.1 c3deepSchema rfl, c3_breadth_first.2.2 c3exSchema rfl⟩

/-- C4 counterexample: a struct-typed target other than `time.Time`
does not fail with `UnsupportedType` — `parseValue` silently succeeds,
leaving the target unchanged (the struct case of the switch catches it
and its `time.Time`-only body is skipped, so the default case is never
reached). -/
theorem c4_counterexample :
    parseValue (.structT "main" "Creds") (.vstruct []) "raw" "," none = .ok (.vstruct []) :=
  rfl

/-- C4 (amended): every target whose kind has no case in the coercion
switch (pointer, array, channel, function, complex, interface kinds)
fails with `UnsupportedType` naming the type's package path and name;
but a struct-typed target other than the designated timestamp type
silently succeeds, returning the field's current value unchanged. -/
theorem c4_unsupported (pkg nm : String) (cur : GoValue) (raw sep : String)
    (layout : Option String) :
    parseValue (.otherT pkg nm) cur raw sep layout = .error (.unsupportedType pkg nm) ∧
      ((pkg == "time" && nm == "Time") = false →
        parseValue (.structT pkg nm) cur raw sep layout = .ok cur) := by
  refine ⟨rfl, fun h => ?_⟩
  simp [parseValue, h]

/-- Witness for C4: an unsupported kind errors; a non-time struct
element type is silently left unchanged. -/
theorem c4_unsupported_witness :
    parseValue (.otherT "" "") (.vother true) "x" "," none = .error (.unsupportedType "" "") ∧
      parseValue (.structT "main" "DBConf") (.vstruct [.vstr "x"]) "y" ";" none
        = .ok (.vstruct [.vstr "x"]) :=
  ⟨(c4_unsupported "" "" (.vother true) "x" "," none).1,
    (c4_unsupported "main" "DBConf" (.vstruct [.vstr "x"]) "y" ";" none).2 rfl⟩

/-- C5: duration-typed coercion parses duration-literal syntax — raw
`"5s"` yields five seconds (in nanoseconds) and the bare integer `"5"`
fails with the missing-unit coercion error, not a nanosecond or second
reading — while non-duration integer targets parse through the
base-detecting integer parser sized to the target's bit width: the
dispatch equation is stated for every width, and concretely a hex
literal is accepted, while `"300"` overflows 8 bits and `"40000"`
overflows 16 bits. -/
theorem c5_duration_vs_int (cur : GoValue) (sep : String) (layout : Option String) :
    parseValue .durationT cur "5s" sep layout = .ok (.vint 5000000000) ∧
      parseValue .durationT cur "5" sep layout = .error (.durationMissingUnit "5") ∧
      (∀ (bits : Nat) (raw : String),
        parseValue (.intT bits) cur raw sep layout = (goParseInt raw bits).map .vint) ∧
      parseValue (.intT 8) cur "300" sep layout = .error (.numRange "ParseInt" "300") ∧
      parseValue (.intT 16) cur "40000" sep layout = .error (.numRange "ParseInt" "40000") ∧
      parseValue (.intT 64) cur "0x1F" sep layout = .ok (.vint 31) :=
  ⟨rfl, rfl, fun _ _ => rfl, rfl, rfl, rfl⟩

/-- C6: sequence coercion for non-byte element types — raw `"a,b,c"`
with the default separator into a string slice yields
`["a","b","c"]`; a raw value that trims to empty yields the empty
sequence (not a one-element sequence holding `""`); otherwise the raw
value is split on the separator and every element is coerced
recursively with the same separator and layout into a zero-valued
slot, in order, any element failure aborting the whole sequence (the
monadic traversal equation), shown to abort concretely on a failing
element. -/
theorem c6_sequence :
    parseValue (.sliceT .stringT) (.vslice []) "a,b,c" "," none
        = .ok (.vslice [.vstr "a", .vstr "b", .vstr "c"]) ∧
      (∀ (elem : GoType) (cur : GoValue) (value sep : String) (layout : Option String),
        elem.isByteElem = false → goTrimSpace value = "" →
          parseValue (.sliceT elem) cur value sep layout = .ok (.vslice [])) ∧
      (∀ (elem : GoType) (cur : GoValue) (value sep : String) (layout : Option String),
        elem.isByteElem = false → goTrimSpace value ≠ "" →
          parseValue (.sliceT elem) cur value sep layout
            = ((goSplit value sep).mapM
                (fun v => parseValue elem (zeroValue elem) v sep layout)).map .vslice) ∧
      parseValue (.sliceT .boolT) (.vslice []) "true,x" "," none
        = .error (.numSyntax "ParseBool" "x") := by
  refine ⟨rfl, ?_, ?_, rfl⟩
  · intro elem cur value sep layout hB hT
    simp [parseValue, hB, hT]
  · intro elem cur value sep layout hB hT
    simp only [parseValue, hB, Bool.false_eq_true, if_false]
    rw [if_neg (by simpa using hT), parseElems_eq_mapM]

/-- Witness for C6: the empty-sequence rule and the traversal equation
applied at concrete inputs. -/
theorem c6_sequence_witness :
    parseValue (.sliceT (.intT 64)) (.vslice []) " \t" "," none = .ok (.vslice []) ∧
      parseValue (.sliceT .stringT) (.vslice []) "x;y" ";" none
        = ((goSplit "x;y" ";").mapM
            (fun v => parseValue .stringT (zeroValue .stringT) v ";" none)).map .vslice :=
  ⟨c6_sequence.2.1 (.intT 64) (.vslice []) " \t" "," none rfl rfl,
    c6_sequence.2.2.1 .stringT (.vslice []) "x;y" ";" none rfl (by decide)⟩

/-- C7: mapping coercion — raw `"k1:v1,k2:v2"` into a string-to-string
map yields exactly those two entries; a raw value that trims to empty
yields the empty mapping; a pair-token with no `:` fails with the
invalid-map-entry error; each pair-token is split at the first `:`
only (`"a:b:c"` maps a to `"b:c"`); and a duplicate key is overwritten
silently, the last occurrence winning. -/
theorem c7_mapping :
    parseValue (.mapT .stringT .stringT) (.vmap []) "k1:v1,k2:v2" "," none
        = .ok (.vmap [(.vstr "k1", .vstr "v1"), (.vstr "k2", .vstr "v2")]) ∧
      (∀ (kt vt : GoType) (cur : GoValue) (value sep : String) (layout : Option String),
        goTrimSpace value = "" →
          parseValue (.mapT kt vt) cur value sep layout = .ok (.vmap [])) ∧
      (∀ cur : GoValue, parseValue (.mapT .stringT .stringT) cur "bad" "," none
        = .error (.invalidMapItem "bad")) ∧
      (∀ cur : GoValue, parseValue (.mapT .stringT .stringT) cur "a:b:c" "," none
        = .ok (.vmap [(.vstr "a", .vstr "b:c")])) ∧
      (∀ cur : GoValue, parseValue (.mapT .stringT .stringT) cur "k:1,k:2" "," none
        = .ok (.vmap [(.vstr "k", .vstr "2")])) := by
  refine ⟨rfl, ?_, fun _ => rfl, fun _ => rfl, fun _ => rfl⟩
  intro kt vt cur value sep layout hT
  simp [parseValue, hT]

/-- Witness for C7: the empty-mapping rule at a concrete all-space raw
value. -/
theorem c7_mapping_witness :
    parseValue (.mapT .stringT (.intT 64)) (.vmap []) "  " "," none = .ok (.vmap []) :=
  c7_mapping.2.1 .stringT (.intT 64) (.vmap []) "  " "," none rfl

/-- C8: a sequence field whose element type is the single-byte kind
takes the raw string's bytes directly, with no separator splitting, for
every raw value and separator — concretely, `"hello"` becomes its five
UTF-8 bytes, and `"a,b"` keeps its comma as the byte 44 instead of
being split on it. -/
theorem c8_byte_sequence :
    (∀ (cur : GoValue) (value sep : String) (layout : Option String),
        parseValue (.sliceT (.uintT 8)) cur value sep layout
          = .ok (.vslice ((goStringBytes value).map .vuint))) ∧
      parseValue (.sliceT (.uintT 8)) (.vslice []) "hello" "," none
        = .ok (.vslice [.vuint 104, .vuint 101, .vuint 108, .vuint 108, .vuint 111]) ∧
      goStringBytes "hello" = [104, 101, 108, 108, 111] ∧
      parseValue (.sliceT (.uintT 8)) (.vslice []) "a,b" "," none
        = .ok (.vslice [.vuint 97, .vuint 44, .vuint 98]) :=
  ⟨fun _ _ _ _ => rfl, rfl, rfl, rfl⟩

/-- C9 counterexample: a schema whose inaccessible field is a nested
structured field is not skipped: the walker aborts with the modelled
reflect panic instead of completing without error. -/
theorem c9_counterexample :
    readStructMetadata
        [FieldDecl.nested "creds" {} false
          [FieldDecl.plain "User" {} true .stringT (.vstr "")]]
      = .error (.panicUnexported "creds") :=
  rfl

/-- C9 (amended): an inaccessible leaf field (timestamp fields
included) is skipped entirely — on leaf-only schemas the walker
completes without error and produces exactly the descriptors it would
produce with the inaccessible fields removed — but an inaccessible
nested structured field aborts the walk with a panic, whatever leaf
fields precede it, because the walker recurses into struct-typed
fields before its settability check. -/
theorem c9_skip_inaccessible :
    (∀ fields : List FieldDecl, fields.all FieldDecl.isLeafB = true →
        readStructMetadata fields = .ok (ownMetas (fields.filter FieldDecl.exportedB))) ∧
      (∀ (pre : List FieldDecl) (nm : String) (tags : Tags) (sub post : List FieldDecl),
        pre.all FieldDecl.isLeafB = true →
          readStructMetadata (pre ++ FieldDecl.nested nm tags false sub :: post)
            = .error (.panicUnexported nm)) := by
  constructor
  · intro fields h
    rw [readStructMetadata_leaf fields h, ownMetas_filter_exported]
  · intro pre nm tags sub post h
    have hp := walkStep_panic nm tags sub post pre h
    simp [readStructMetadata, walkQueue, hp]

/-- Witness for C9: an inaccessible leaf field is skipped without
error, and an inaccessible nested struct field panics. -/
theorem c9_skip_inaccessible_witness :
    readStructMetadata
        [ FieldDecl.plain "A" {} true .stringT (.vstr ""),
          FieldDecl.plain "b" {} false .stringT (.vstr "secret") ]
      = .ok (ownMetas (List.filter FieldDecl.exportedB
          [ FieldDecl.plain "A" {} true .stringT (.vstr ""),
            FieldDecl.plain "b" {} false .stringT (.vstr "secret") ])) ∧
      readStructMetadata
          ([FieldDecl.plain "A" {} true .stringT (.vstr "")] ++
            FieldDecl.nested "db" {} false [] :: [])
        = .error (.panicUnexported "db") :=
  ⟨c9_skip_inaccessible.1
      [ FieldDecl.plain "A" {} true .stringT (.vstr ""),
        FieldDecl.plain "b" {} false .stringT (.vstr "secret") ] rfl,
    c9_skip_inaccessible.2 [FieldDecl.plain "A" {} true .stringT (.vstr "")] "db" {} [] []
      rfl⟩

/-- Appending an underscore always leaves an underscore suffix. -/
theorem goHasSuffix_append_underscore (p : String) : goHasSuffix (p ++ "_") "_" = true := by
  obtain ⟨l⟩ := p
  have h1 : (String.mk l ++ "_") = String.mk (l ++ ['_']) := rfl
  have h2 : (String.mk (l ++ ['_'])).toList = l ++ ['_'] := rfl
  have h3 : ("_" : String).toList = ['_'] := rfl
  rw [h1]
  simp only [goHasSuffix, h2, h3]
  simp [listStartsWith]

/-- C10: after `WithEnvPrefix p` the stored environment-name prefix
always ends with an underscore — it equals `p` when `p` already ends
with `"_"` and `p ++ "_"` otherwise — and the candidate loop of
`readEnvVars` looks up exactly this stored prefix prepended to each
candidate name, the first name present in the environment winning
(the `findSome?` equation). -/
theorem c10_env_prefix_normalized :
    (∀ p : String, goHasSuffix (withEnvPrefix p) "_" = true) ∧
      (∀ p : String, goHasSuffix p "_" = true → withEnvPrefix p = p) ∧
      (∀ p : String, goHasSuffix p "_" = false → withEnvPrefix p = p ++ "_") ∧
      (∀ (env : List (String × String)) (p : String) (names : List String),
        firstEnvValue env (withEnvPrefix p) names
          = names.findSome? (fun nm => envLookup env (withEnvPrefix p ++ nm))) := by
  refine ⟨?_, ?_, ?_, ?_⟩
  · intro p
    by_cases hS : goHasSuffix p "_" = true
    · simp [withEnvPrefix, hS]
    · simp only [withEnvPrefix, hS, if_false]
      exact goHasSuffix_append_underscore p
  · intro p h
    simp [withEnvPrefix, h]
  · intro p h
    simp [withEnvPrefix, h]
  · intro env p names
    induction names with
    | nil => rfl
    | cons nm rest ih =>
      cases h : envLookup env (withEnvPrefix p ++ nm) with
      | some v => simp [firstEnvValue, List.findSome?_cons, h]
      | none => simp [firstEnvValue, List.findSome?_cons, h, ih]

/-- Witness for C10: normalization at a prefix without and with a
trailing underscore. -/
theorem c10_env_prefix_normalized_witness :
    withEnvPrefix "APP" = "APP" ++ "_" ∧ withEnvPrefix "MY_" = "MY_" :=
  ⟨c10_env_prefix_normalized.2.2.1 "APP" rfl, c10_env_prefix_normalized.2.1 "MY_" rfl⟩
